import Mathlib

/-!
Verification of the type-checking and binder-bookkeeping core of a Dhall
implementation (`dhall/src/typecheck.rs`, `dhall/src/semantics/core/context.rs`).

The term grammar, the typing context of `dhall_core`, and the shift/substitution
primitives live in the `dhall_core` crate, which is not part of the sources
under verification; they are modelled from the specification (sections 3.3, 3.4
and 4.2).  The normalizer is an external black box (section 4.3): the checker is
parametric in a function `norm : Expr → Expr`.  Machine integers (`usize`)
are modelled as `Nat`; a `usize` subtraction that would underflow is a Rust
arithmetic-overflow program error and is modelled as a failure (`none`), and a
Rust `panic!` in the checker is modelled by the result `TCRes.panicked`.
Recursion of the synthesiser is not structural (the `Lam` clause re-checks a
type it has just built), so the checker takes an explicit fuel argument and
every recursive call spends one unit; `TCRes.nofuel` reports exhaustion.
-/

namespace Dhall

/-- Labels are opaque identifiers with equality (spec 3.1). -/
abbrev Label := String

/-- A de Bruijn-indexed named variable `V(label, k)` (spec 3.1). -/
structure V where
  name : Label
  idx : Nat
deriving DecidableEq, Repr

/-- The two universes (spec 3.2). -/
inductive Const where
  | type
  | kind
deriving DecidableEq, Repr

/-- Modelled from the spec: the builtin identifiers the language defines
(spec 4.5 and 9; the enumeration lives in `dhall_core`, outside the verified
sources).  The first group has entries in the builtin type oracle of
`typecheck.rs`; the second group are the builtins on which the oracle's
catch-all arm panics (spec 9, "panics … on several builtin-oracle entries"). -/
inductive Builtin where
  | bool | natural | integer | double | text | list | optional
  | naturalFold | naturalBuild | naturalIsZero | naturalEven | naturalOdd
  | listBuild | listFold | listLength | listHead | listLast | listIndexed
  | listReverse | optionalFold
  | naturalToInteger | naturalShow | integerShow | integerToDouble
  | doubleShow | optionalBuild | textShow
deriving DecidableEq, Repr

/-- Modelled from the spec: binary operators (spec 3.3); the last three are
operators `typecheck.rs` does not implement (its `BinOp` arm panics on them). -/
inductive BinOp where
  | boolAnd | boolOr | boolEQ | boolNE | naturalPlus | naturalTimes
  | textAppend
  | listAppend | combine | prefer
deriving DecidableEq, Repr

/-- Modelled from the spec: the term grammar (spec 3.3), restricted to the
constructors `typecheck.rs` matches on (`dhall_core::Expr` is outside the
verified sources).  `UnionType` payloads are bare terms, as in the
`prop_equal` clause of `typecheck.rs`.  The payloads of `DoubleLit` and
`TextLit` are never inspected by the checker; `DoubleLit`'s is an opaque
representation of the literal. -/
inductive Expr where
  | const : Const → Expr
  | var : V → Expr
  | lam : Label → Expr → Expr → Expr
  | pi : Label → Expr → Expr → Expr
  | app : Expr → List Expr → Expr
  | letIn : Label → Option Expr → Expr → Expr → Expr
  | annot : Expr → Expr → Expr
  | boolIf : Expr → Expr → Expr → Expr
  | boolLit : Bool → Expr
  | naturalLit : Nat → Expr
  | integerLit : Int → Expr
  | doubleLit : Nat → Expr
  | textLit : String → Expr
  | binOp : BinOp → Expr → Expr → Expr
  | emptyListLit : Expr → Expr
  | neListLit : List Expr → Expr
  | emptyOptionalLit : Expr → Expr
  | neOptionalLit : Expr → Expr
  | recordType : List (Label × Expr) → Expr
  | recordLit : List (Label × Expr) → Expr
  | unionType : List (Label × Expr) → Expr
  | field : Expr → Label → Expr
  | builtin : Builtin → Expr

/-- Index adjustment for a variable occurrence: free occurrences of the
shifted label with index at least the cutoff move by `d` (spec 4.2). -/
def shiftVar (d : Int) (v : V) (w : V) : V :=
  if w.name = v.name ∧ v.idx ≤ w.idx then ⟨w.name, ((w.idx : Int) + d).toNat⟩
  else w

mutual

/-- Modelled from the spec: `shift(δ, V(x,m), e)` rewrites every free
occurrence of a variable labelled `x` with index ≥ `m` by adding `δ`;
each binder whose label matches raises the cutoff by one (spec 4.2).
The implementation lives in `dhall_core`, outside the verified sources. -/
def shift (d : Int) (v : V) : Expr → Expr
  | .const c => .const c
  | .var w => .var (shiftVar d v w)
  | .lam x tA b =>
      .lam x (shift d v tA) (shift d (if x = v.name then ⟨v.name, v.idx + 1⟩ else v) b)
  | .pi x tA tB =>
      .pi x (shift d v tA) (shift d (if x = v.name then ⟨v.name, v.idx + 1⟩ else v) tB)
  | .app f args => .app (shift d v f) (shiftList d v args)
  | .letIn x mt r b =>
      .letIn x (match mt with | some t => some (shift d v t) | none => none)
        (shift d v r)
        (shift d (if x = v.name then ⟨v.name, v.idx + 1⟩ else v) b)
  | .annot e t => .annot (shift d v e) (shift d v t)
  | .boolIf c t e => .boolIf (shift d v c) (shift d v t) (shift d v e)
  | .boolLit b => .boolLit b
  | .naturalLit n => .naturalLit n
  | .integerLit n => .integerLit n
  | .doubleLit n => .doubleLit n
  | .textLit s => .textLit s
  | .binOp o l r => .binOp o (shift d v l) (shift d v r)
  | .emptyListLit t => .emptyListLit (shift d v t)
  | .neListLit xs => .neListLit (shiftList d v xs)
  | .emptyOptionalLit t => .emptyOptionalLit (shift d v t)
  | .neOptionalLit x => .neOptionalLit (shift d v x)
  | .recordType kts => .recordType (shiftKts d v kts)
  | .recordLit kvs => .recordLit (shiftKts d v kvs)
  | .unionType kts => .unionType (shiftKts d v kts)
  | .field r x => .field (shift d v r) x
  | .builtin b => .builtin b

/-- `shift` mapped over a vector of subterms. -/
def shiftList (d : Int) (v : V) : List Expr → List Expr
  | [] => []
  | e :: es => shift d v e :: shiftList d v es

/-- `shift` mapped over the values of a keyed map. -/
def shiftKts (d : Int) (v : V) : List (Label × Expr) → List (Label × Expr)
  | [] => []
  | (k, t) :: rest => (k, shift d v t) :: shiftKts d v rest

end

mutual

/-- Modelled from the spec: `subst(V(x,m), replacement, e)` replaces every
free `V(x,m)` in `e` with the replacement, raising the target index by one
and shifting the replacement when passing under a binder whose label matches
(spec 4.2).  The implementation lives in `dhall_core`, outside the verified
sources. -/
def subst (v : V) (r : Expr) : Expr → Expr
  | .const c => .const c
  | .var w => if w = v then r else .var w
  | .lam x tA b =>
      .lam x (subst v r tA)
        (subst (if x = v.name then ⟨v.name, v.idx + 1⟩ else v) (shift 1 ⟨x, 0⟩ r) b)
  | .pi x tA tB =>
      .pi x (subst v r tA)
        (subst (if x = v.name then ⟨v.name, v.idx + 1⟩ else v) (shift 1 ⟨x, 0⟩ r) tB)
  | .app f args => .app (subst v r f) (substList v r args)
  | .letIn x mt rhs b =>
      .letIn x (match mt with | some t => some (subst v r t) | none => none)
        (subst v r rhs)
        (subst (if x = v.name then ⟨v.name, v.idx + 1⟩ else v) (shift 1 ⟨x, 0⟩ r) b)
  | .annot e t => .annot (subst v r e) (subst v r t)
  | .boolIf c t e => .boolIf (subst v r c) (subst v r t) (subst v r e)
  | .boolLit b => .boolLit b
  | .naturalLit n => .naturalLit n
  | .integerLit n => .integerLit n
  | .doubleLit n => .doubleLit n
  | .textLit s => .textLit s
  | .binOp o l rhs => .binOp o (subst v r l) (subst v r rhs)
  | .emptyListLit t => .emptyListLit (subst v r t)
  | .neListLit xs => .neListLit (substList v r xs)
  | .emptyOptionalLit t => .emptyOptionalLit (subst v r t)
  | .neOptionalLit x => .neOptionalLit (subst v r x)
  | .recordType kts => .recordType (substKts v r kts)
  | .recordLit kvs => .recordLit (substKts v r kvs)
  | .unionType kts => .unionType (substKts v r kts)
  | .field rec x => .field (subst v r rec) x
  | .builtin b => .builtin b

/-- `subst` mapped over a vector of subterms. -/
def substList (v : V) (r : Expr) : List Expr → List Expr
  | [] => []
  | e :: es => subst v r e :: substList v r es

/-- `subst` mapped over the values of a keyed map. -/
def substKts (v : V) (r : Expr) : List (Label × Expr) → List (Label × Expr)
  | [] => []
  | (k, t) :: rest => (k, subst v r t) :: substKts v r rest

end

/-- The variable case of `prop_equal` (`match_vars`, typecheck.rs lines
32-49).  The Rust code copies the frame vector, reverses it and then pops
from the back, which visits the frames in their original order — index 0,
the outermost pushed pair, first.  The counters are `usize`; decrementing a
counter that is already 0 is a Rust arithmetic underflow, modelled as
`none`.  The Rust guard evaluates the left decrement before the right one. -/
def matchVars : V → V → List (Label × Label) → Option Bool
  | vl, vr, [] => some (vl = vr)
  | ⟨xL, nL⟩, ⟨xR, nR⟩, (xL2, xR2) :: rest =>
      if xL = xL2 ∧ xR = xR2 ∧ nL = 0 ∧ nR = 0 then some true
      else if xL = xL2 ∧ nL = 0 then none
      else if xR = xR2 ∧ nR = 0 then none
      else matchVars ⟨xL, if xL = xL2 then nL - 1 else nL⟩
            ⟨xR, if xR = xR2 then nR - 1 else nR⟩ rest

/-- One frame step of the claimed scan, walking the given frame list
head-first with the counter discipline the claim describes (decrement at a
frame whose label matches; true when both counters reach 0 together at a
frame pair matching both labels; a decrement of a counter already at 0
fails; syntactic equality of the walked variables at exhaustion). -/
def matchVarsScanFrames : V → V → List (Label × Label) → Option Bool
  | vl, vr, [] => some (vl = vr)
  | ⟨xL, nL⟩, ⟨xR, nR⟩, (xL2, xR2) :: rest =>
      if xL = xL2 ∧ xR = xR2 ∧ nL = 0 ∧ nR = 0 then some true
      else if xL = xL2 ∧ nL = 0 then none
      else if xR = xR2 ∧ nR = 0 then none
      else matchVarsScanFrames ⟨xL, if xL = xL2 then nL - 1 else nL⟩
            ⟨xR, if xR = xR2 then nR - 1 else nR⟩ rest

/-- The variable scan exactly as the claim states it: walking the pair stack
from the innermost frame outward (the innermost pushed pair is the last
element of the frame list, so the walk traverses the reversed list). -/
def matchVarsSpecInner (vl vr : V) (ctx : List (Label × Label)) : Option Bool :=
  matchVarsScanFrames vl vr ctx.reverse

/-- The amended variable scan: the same walk, but from the outermost frame
(index 0 of the frame list) inward, answering true when both counters reach
0 together at a frame matching both labels, failing when a matching frame
would decrement a counter that is already 0, and requiring syntactic
equality of the two walked variables when the stack is exhausted. -/
def matchVarsSpecOuter : V → V → List (Label × Label) → Option Bool
  | vl, vr, [] => some (vl = vr)
  | ⟨xL, nL⟩, ⟨xR, nR⟩, (xL2, xR2) :: rest =>
      if xL = xL2 ∧ xR = xR2 ∧ nL = 0 ∧ nR = 0 then some true
      else if (xL = xL2 ∧ nL = 0) ∨ (xR = xR2 ∧ nR = 0) then none
      else matchVarsSpecOuter ⟨xL, if xL = xL2 then nL - 1 else nL⟩
            ⟨xR, if xR = xR2 then nR - 1 else nR⟩ rest

mutual

/-- The recursive worker of `prop_equal` (typecheck.rs lines 58-111).
The pair stack grows at the back when both sides are `Pi`, mirroring the
`Vec::push` of the source; a `none` result models the arithmetic-underflow
panic of `match_vars`. -/
def propEqGo : List (Label × Label) → Expr → Expr → Option Bool
  | _, .const a, .const b => some (a = b)
  | _, .builtin a, .builtin b => some (a = b)
  | ctx, .var vL, .var vR => matchVars vL vR ctx
  | ctx, .pi xL tL bL, .pi xR tR bR => do
      let eq1 ← propEqGo ctx tL tR
      if eq1 then propEqGo (ctx ++ [(xL, xR)]) bL bR else pure false
  | ctx, .app fL aL, .app fR aR => do
      let eq1 ← propEqGo ctx fL fR
      if eq1 then
        if aL.length = aR.length then propEqList ctx aL aR else pure false
      else pure false
  | ctx, .recordType ktsL, .recordType ktsR =>
      if ktsL.length = ktsR.length then propEqKts ctx ktsL ktsR else some false
  | ctx, .unionType ktsL, .unionType ktsR =>
      if ktsL.length = ktsR.length then propEqKts ctx ktsL ktsR else some false
  | _, _, _ => some false

/-- Pointwise comparison of two argument vectors, stopping at the shorter
one, as `zip(...).all(...)` does (the caller has already compared lengths). -/
def propEqList : List (Label × Label) → List Expr → List Expr → Option Bool
  | _, [], _ => some true
  | _, _ :: _, [] => some true
  | ctx, a :: as, b :: bs => do
      let eq ← propEqGo ctx a b
      if eq then propEqList ctx as bs else pure false

/-- Pointwise comparison of two keyed maps: for each pair, label equality
first (short-circuiting), then the payload types. -/
def propEqKts : List (Label × Label) → List (Label × Expr) → List (Label × Expr) → Option Bool
  | _, [], _ => some true
  | _, _ :: _, [] => some true
  | ctx, (kL, tL) :: rL, (kR, tR) :: rR =>
      if kL = kR then do
        let eq ← propEqGo ctx tL tR
        if eq then propEqKts ctx rL rR else pure false
      else some false

end

/-- α-equivalence of two normalized terms (`prop_equal`, typecheck.rs lines
52-114), starting from an empty pair stack.  `none` models the panic that a
`usize` underflow in `match_vars` raises. -/
def propEqual (e1 e2 : Expr) : Option Bool :=
  propEqGo [] e1 e2

/-- The error taxonomy (`TypeMessage`, typecheck.rs lines 475-520).
`HashSet<Label>` payloads are modelled as label lists. -/
inductive TypeMessage where
  | unboundVariable
  | invalidInputType (t : Expr)
  | invalidOutputType (t : Expr)
  | notAFunction (f tf : Expr)
  | typeMismatch (f expected arg got : Expr)
  | annotMismatch (e declared inferred : Expr)
  | untyped
  | invalidListElement (i : Nat) (t elem gotT : Expr)
  | invalidListType (t : Expr)
  | invalidOptionalElement (t elem gotT : Expr)
  | invalidOptionalLiteral (i : Nat)
  | invalidOptionalType (t : Expr)
  | invalidPredicate (c tc : Expr)
  | ifBranchMismatch (y z tY tZ : Expr)
  | ifBranchMustBeTerm (isThen : Bool) (branch tBranch ttBranch : Expr)
  | invalidField (l : Label) (v : Expr)
  | invalidFieldType (l : Label) (t : Expr)
  | invalidAlternative (l : Label) (v : Expr)
  | invalidAlternativeType (l : Label) (t : Expr)
  | duplicateAlternative (l : Label)
  | mustCombineARecord (a b : Expr)
  | fieldCollision (l : Label)
  | mustMergeARecord (a b : Expr)
  | mustMergeUnion (a b : Expr)
  | unusedHandler (s : List Label)
  | missingHandler (s : List Label)
  | handlerInputTypeMismatch (l : Label) (a b : Expr)
  | handlerOutputTypeMismatch (l : Label) (a b : Expr)
  | handlerNotAFunction (l : Label) (t : Expr)
  | notARecord (l : Label) (r tR : Expr)
  | missingField (l : Label) (tR : Expr)
  | binOpTypeMismatch (op : BinOp) (side tSide : Expr)
  | noDependentLet (tR tB : Expr)
  | noDependentTypes (tA tB : Expr)

/-- Modelled from the spec: the typing context of `dhall_core` (spec 3.4),
an ordered stack of `(label, type)` frames.  The innermost frame is the head
of the list.  Types are stored verbatim; re-indexing is performed by the
callers in `typecheck.rs` at insertion time. -/
def Ctx := List (Label × Expr)

/-- A fresh, empty context. -/
def Ctx.empty : Ctx := []

/-- Push a frame at the innermost end (spec 3.4). -/
def Ctx.insert (ctx : Ctx) (x : Label) (t : Expr) : Ctx :=
  (x, t) :: ctx

/-- Apply a function to every stored type (the `map` of `dhall_core`'s
context, used by the binder clauses of `typecheck.rs`). -/
def Ctx.mapTypes (f : Expr → Expr) : Ctx → Ctx
  | [] => []
  | (l, t) :: rest => (l, f t) :: Ctx.mapTypes f rest

/-- Lookup of `V(x, n)`: scan from the innermost frame, decrementing `n`
every time a frame labelled `x` is passed; the match is the first frame
labelled `x` reached at `n = 0` (spec 3.4). -/
def Ctx.lookup : Ctx → Label → Nat → Option Expr
  | [], _, _ => none
  | (l, t) :: rest, x, n =>
      if l = x then
        if n = 0 then some t else Ctx.lookup rest x (n - 1)
      else Ctx.lookup rest x n

/-- A structured type error with the context and offending term attached
(`TypeError`, typecheck.rs lines 523-528). -/
structure TypeError where
  context : Ctx
  current : Expr
  typeMessage : TypeMessage

/-- Outcome of a checker computation: a value, a structured type error, a
Rust `panic!` (including `usize` underflow inside `prop_equal`), or fuel
exhaustion of the embedding. -/
inductive TCRes (α : Type) where
  | ok : α → TCRes α
  | err : TypeError → TCRes α
  | panicked : TCRes α
  | nofuel : TCRes α

/-- Sequencing that propagates errors, panics and fuel exhaustion, the
`?` operator of the source. -/
def TCRes.bind : TCRes α → (α → TCRes β) → TCRes β
  | .ok a, f => f a
  | .err e, _ => .err e
  | .panicked, _ => .panicked
  | .nofuel, _ => .nofuel

/-- Map over a successful result. -/
def TCRes.mapOk (f : α → β) : TCRes α → TCRes β
  | .ok a => .ok (f a)
  | .err e => .err e
  | .panicked => .panicked
  | .nofuel => .nofuel

/-- Result type of the synthesiser. -/
abbrev TCResult := TCRes Expr

/-- The universe-of-universes step (`axiom`, typecheck.rs lines 14-21):
`Type : Kind`, and typing `Kind` is the error `Untyped`, reported with an
empty context and the constant itself as the current term. -/
def axiomConst : Const → TCRes Const
  | .type => .ok .kind
  | .kind => .err ⟨Ctx.empty, .const .kind, .untyped⟩

/-- The Π-formation rule table (`rule`, typecheck.rs lines 23-30): the
`(Type, Kind)` cell is rejected. -/
def rule : Const → Const → Except Unit Const
  | .type, .kind => .error ()
  | .kind, .kind => .ok .kind
  | .type, .type => .ok .type
  | .kind, .type => .ok .type

/-- Shorthand for a non-dependent function type, dhall's `A -> B`. -/
def arrow (a b : Expr) : Expr := .pi "_" a b

/-- The builtin type oracle (`type_of_builtin`, typecheck.rs lines 116-178).
The catch-all arm of the source panics; a builtin that reaches it is mapped
to `none`. -/
def typeOfBuiltin : Builtin → Option Expr
  | .bool | .natural | .integer | .double | .text => some (.const .type)
  | .list | .optional => some (arrow (.const .type) (.const .type))
  | .naturalFold => some (arrow (.builtin .natural)
      (.pi "natural" (.const .type)
        (.pi "succ" (arrow (.var ⟨"natural", 0⟩) (.var ⟨"natural", 0⟩))
          (.pi "zero" (.var ⟨"natural", 0⟩) (.var ⟨"natural", 0⟩)))))
  | .naturalBuild => some (arrow
      (.pi "natural" (.const .type)
        (.pi "succ" (arrow (.var ⟨"natural", 0⟩) (.var ⟨"natural", 0⟩))
          (.pi "zero" (.var ⟨"natural", 0⟩) (.var ⟨"natural", 0⟩))))
      (.builtin .natural))
  | .naturalIsZero | .naturalEven | .naturalOdd =>
      some (arrow (.builtin .natural) (.builtin .bool))
  | .listBuild => some (.pi "a" (.const .type)
      (arrow
        (.pi "list" (.const .type)
          (.pi "cons" (arrow (.var ⟨"a", 0⟩) (arrow (.var ⟨"list", 0⟩) (.var ⟨"list", 0⟩)))
            (.pi "nil" (.var ⟨"list", 0⟩) (.var ⟨"list", 0⟩))))
        (.app (.builtin .list) [.var ⟨"a", 0⟩])))
  | .listFold => some (.pi "a" (.const .type)
      (arrow (.app (.builtin .list) [.var ⟨"a", 0⟩])
        (.pi "list" (.const .type)
          (.pi "cons" (arrow (.var ⟨"a", 0⟩) (arrow (.var ⟨"list", 0⟩) (.var ⟨"list", 0⟩)))
            (.pi "nil" (.var ⟨"list", 0⟩) (.var ⟨"list", 0⟩))))))
  | .listLength => some (.pi "a" (.const .type)
      (arrow (.app (.builtin .list) [.var ⟨"a", 0⟩]) (.builtin .natural)))
  | .listHead | .listLast => some (.pi "a" (.const .type)
      (arrow (.app (.builtin .list) [.var ⟨"a", 0⟩])
        (.app (.builtin .optional) [.var ⟨"a", 0⟩])))
  | .listIndexed => some (.pi "a" (.const .type)
      (arrow (.app (.builtin .list) [.var ⟨"a", 0⟩])
        (.app (.builtin .list)
          [.recordType [("index", .builtin .natural), ("value", .var ⟨"a", 0⟩)]])))
  | .listReverse => some (.pi "a" (.const .type)
      (arrow (.app (.builtin .list) [.var ⟨"a", 0⟩])
        (.app (.builtin .list) [.var ⟨"a", 0⟩])))
  | .optionalFold => some (.pi "a" (.const .type)
      (arrow (.app (.builtin .optional) [.var ⟨"a", 0⟩])
        (.pi "optional" (.const .type)
          (.pi "just" (arrow (.var ⟨"a", 0⟩) (.var ⟨"optional", 0⟩))
            (.pi "nothing" (.var ⟨"optional", 0⟩) (.var ⟨"optional", 0⟩))))))
  | _ => none

/-- `Vec::split_last`: the last element together with the preceding ones. -/
def splitLast : List α → Option (α × List α)
  | [] => none
  | [a] => some (a, [])
  | x :: xs =>
      match splitLast xs with
      | some (a, init) => some (a, x :: init)
      | none => none

/-- The demanded operand type of a binary operator (the `match o` of the
`BinOp` clause, typecheck.rs lines 423-432); `none` marks the operators on
which the source panics. -/
def demandedType : BinOp → Option Builtin
  | .boolAnd => some .bool
  | .boolOr => some .bool
  | .boolEQ => some .bool
  | .boolNE => some .bool
  | .naturalPlus => some .natural
  | .naturalTimes => some .natural
  | .textAppend => some .text
  | _ => none

/-- The context extension performed by the `Lam` and `Pi` clauses
(typecheck.rs lines 219-221 and 231-233): push `(x, tA)` and shift every
stored type by `+1` over `V(x, 0)`. -/
def pushShifted (ctx : Ctx) (x : Label) (tA : Expr) : Ctx :=
  Ctx.mapTypes (shift 1 ⟨x, 0⟩) (Ctx.insert ctx x tA)

/-- Association lookup in a record type, `BTreeMap::get`. -/
def ktsGet : List (Label × Expr) → Label → Option Expr
  | [], _ => none
  | (k, t) :: rest, x => if k = x then some t else ktsGet rest x

/-- The element loop of the `NEListLit` clause (typecheck.rs lines 365-370):
each further element's normalized type must be α-equal to the normalized
type `t` of the first element.  `ntw` is the recursive call to
`normalized_type_with`; `ctx` and `e0` build the reported error. -/
def checkListElems (ntw : Expr → TCResult) (ctx : Ctx) (e0 : Expr) (t : Expr) :
    Nat → List Expr → TCRes Unit
  | _, [] => .ok ()
  | i, x :: rest =>
      (ntw x).bind fun t2 =>
        match propEqual t t2 with
        | some true => checkListElems ntw ctx e0 t (i + 1) rest
        | some false => .err ⟨ctx, e0, .invalidListElement i t x t2⟩
        | none => .panicked

/-- The field loop of the `RecordType` clause (typecheck.rs lines 386-391):
every field type must normalize to `Type`. -/
def checkRecordTypeFields (ntw : Expr → TCResult) (ctx : Ctx) (e0 : Expr) :
    List (Label × Expr) → TCRes Unit
  | [] => .ok ()
  | (k, t) :: rest =>
      (ntw t).bind fun s =>
        match s with
        | .const .type => checkRecordTypeFields ntw ctx e0 rest
        | _ => .err ⟨ctx, e0, .invalidFieldType k t⟩

/-- The field loop of the `RecordLit` clause (typecheck.rs lines 393-402):
synthesise each value's type, demand that it is a `Type`, and collect the
`(label, type)` pairs in order; the first error aborts. -/
def typeRecordLitFields (tw ntw : Expr → TCResult) (ctx : Ctx) (e0 : Expr) :
    List (Label × Expr) → TCRes (List (Label × Expr))
  | [] => .ok []
  | (k, v) :: rest =>
      (tw v).bind fun t =>
      (ntw t).bind fun s =>
        match s with
        | .const .type =>
            (typeRecordLitFields tw ntw ctx e0 rest).bind fun kts =>
              .ok ((k, t) :: kts)
        | _ => .err ⟨ctx, e0, .invalidField k v⟩

/-- The type synthesiser (`type_with`, typecheck.rs lines 186-451), with one
clause per head constructor.  The checker treats the normalizer as a black
box (spec 4.3), so it is parametric in `norm`; `normalized_type_with`
appears as `TCRes.mapOk norm` around a recursive call.  The recursion of the
source is not structural (the `Lam` clause re-checks the `Pi` it builds), so
every recursive call spends one unit of fuel. -/
def typeWith (norm : Expr → Expr) : Nat → Ctx → Expr → TCResult
  | 0, _, _ => .nofuel
  | n + 1, ctx, e =>
    match e with
    | .const c =>
        (match axiomConst c with
         | .ok k => .ok (.const k)
         | .err er => .err er
         | .panicked => .panicked
         | .nofuel => .nofuel)
    | .var v =>
        (match Ctx.lookup ctx v.name v.idx with
         | some t => .ok t
         | none => .err ⟨ctx, e, .unboundVariable⟩)
    | .lam x tA b =>
        (typeWith norm n (pushShifted ctx x tA) b).bind fun tB =>
        (typeWith norm n ctx (.pi x tA tB)).bind fun _ =>
        .ok (.pi x tA tB)
    | .pi x tA tB0 =>
        (TCRes.mapOk norm (typeWith norm n ctx tA)).bind fun tA2 =>
        match tA2 with
        | .const kA =>
            (TCRes.mapOk norm (typeWith norm n (pushShifted ctx x tA) tB0)).bind fun tBn =>
            match tBn with
            | .const kB =>
                (match rule kA kB with
                 | .error _ => .err ⟨ctx, e, .noDependentTypes tA tBn⟩
                 | .ok _ => .ok (.const kB))
            | _ => .err ⟨pushShifted ctx x tA, e, .invalidOutputType tBn⟩
        | _ => .err ⟨ctx, e, .invalidInputType tA⟩
    | .app f args =>
        (match splitLast args with
         | none => typeWith norm n ctx f
         | some (a, init) =>
            (TCRes.mapOk norm (typeWith norm n ctx (.app f init))).bind fun tf =>
            match tf with
            | .pi x tA tB =>
                (TCRes.mapOk norm (typeWith norm n ctx a)).bind fun tA2 =>
                match propEqual (norm tA) tA2 with
                | some true =>
                    .ok (shift (-1) ⟨x, 0⟩ (subst ⟨x, 0⟩ (shift 1 ⟨x, 0⟩ a) tB))
                | some false => .err ⟨ctx, e, .typeMismatch f (norm tA) a tA2⟩
                | none => .panicked
            | _ => .err ⟨ctx, e, .notAFunction f tf⟩)
    | .letIn f mt r0 b =>
        (typeWith norm n ctx (match mt with | some t => .annot r0 t | none => r0)).bind
          fun tR =>
        (TCRes.mapOk norm (typeWith norm n ctx tR)).bind fun ttR =>
        match ttR with
        | .const kR =>
            (typeWith norm n (Ctx.insert ctx f tR) b).bind fun tB =>
            (TCRes.mapOk norm (typeWith norm n ctx tB)).bind fun ttB =>
            match ttB with
            | .const kB =>
                (match rule kR kB with
                 | .error _ => .err ⟨ctx, e, .noDependentLet tR tB⟩
                 | .ok _ => .ok tB)
            | _ => .err ⟨ctx, e, .invalidOutputType tB⟩
        | _ => .err ⟨ctx, e, .invalidInputType tR⟩
    | .annot x t =>
        (typeWith norm n ctx t).bind fun _ =>
        (TCRes.mapOk norm (typeWith norm n ctx x)).bind fun t2 =>
        match propEqual (norm t) t2 with
        | some true => .ok (norm t)
        | some false => .err ⟨ctx, e, .annotMismatch x (norm t) t2⟩
        | none => .panicked
    | .boolIf x y z =>
        (TCRes.mapOk norm (typeWith norm n ctx x)).bind fun tx =>
        match tx with
        | .builtin .bool =>
            (TCRes.mapOk norm (typeWith norm n ctx y)).bind fun ty =>
            (TCRes.mapOk norm (typeWith norm n ctx ty)).bind fun tty =>
            (match tty with
             | .const .type =>
                (TCRes.mapOk norm (typeWith norm n ctx z)).bind fun tz =>
                (TCRes.mapOk norm (typeWith norm n ctx tz)).bind fun ttz =>
                (match ttz with
                 | .const .type =>
                    (match propEqual ty tz with
                     | some true => .ok ty
                     | some false => .err ⟨ctx, e, .ifBranchMismatch y z ty tz⟩
                     | none => .panicked)
                 | _ => .err ⟨ctx, e, .ifBranchMustBeTerm false z tz ttz⟩)
             | _ => .err ⟨ctx, e, .ifBranchMustBeTerm true y ty tty⟩)
        | _ => .err ⟨ctx, e, .invalidPredicate x tx⟩
    | .emptyListLit t =>
        (TCRes.mapOk norm (typeWith norm n ctx t)).bind fun s =>
        match s with
        | .const .type => .ok (.app (.builtin .list) [norm t])
        | _ => .err ⟨ctx, e, .invalidListType t⟩
    | .neListLit xs =>
        (match xs with
         | [] => .panicked
         | x0 :: rest =>
            (typeWith norm n ctx x0).bind fun t =>
            (TCRes.mapOk norm (typeWith norm n ctx t)).bind fun s =>
            match s with
            | .const .type =>
                (checkListElems (fun y => TCRes.mapOk norm (typeWith norm n ctx y))
                    ctx e (norm t) 1 rest).bind fun _ =>
                .ok (.app (.builtin .list) [norm t])
            | _ => .err ⟨ctx, e, .invalidListType t⟩)
    | .emptyOptionalLit t =>
        (TCRes.mapOk norm (typeWith norm n ctx t)).bind fun s =>
        match s with
        | .const .type => .ok (.app (.builtin .optional) [norm t])
        | _ => .err ⟨ctx, e, .invalidOptionalType t⟩
    | .neOptionalLit x =>
        (typeWith norm n ctx x).bind fun t =>
        (TCRes.mapOk norm (typeWith norm n ctx t)).bind fun s =>
        match s with
        | .const .type => .ok (.app (.builtin .optional) [norm t])
        | _ => .err ⟨ctx, e, .invalidOptionalType t⟩
    | .recordType kts =>
        (checkRecordTypeFields (fun y => TCRes.mapOk norm (typeWith norm n ctx y))
            ctx e kts).bind fun _ =>
        .ok (.const .type)
    | .recordLit kvs =>
        (typeRecordLitFields (typeWith norm n ctx)
            (fun y => TCRes.mapOk norm (typeWith norm n ctx y)) ctx e kvs).bind fun kts =>
        .ok (.recordType kts)
    | .field r x =>
        (TCRes.mapOk norm (typeWith norm n ctx r)).bind fun t =>
        match t with
        | .recordType kts =>
            (match ktsGet kts x with
             | some ty => .ok ty
             | none => .err ⟨ctx, e, .missingField x t⟩)
        | _ => .err ⟨ctx, e, .notARecord x r t⟩
    | .builtin b =>
        (match typeOfBuiltin b with
         | some t => .ok t
         | none => .panicked)
    | .boolLit _ => .ok (.builtin .bool)
    | .naturalLit _ => .ok (.builtin .natural)
    | .integerLit _ => .ok (.builtin .integer)
    | .doubleLit _ => .ok (.builtin .double)
    | .textLit _ => .ok (.builtin .text)
    | .binOp o l r =>
        (match demandedType o with
         | none => .panicked
         | some t =>
            (TCRes.mapOk norm (typeWith norm n ctx l)).bind fun tl =>
            match tl with
            | .builtin lt =>
                if lt = t then
                  (TCRes.mapOk norm (typeWith norm n ctx r)).bind fun tr =>
                  match tr with
                  | .builtin rt =>
                      if rt = t then .ok (.builtin t)
                      else .err ⟨ctx, e, .binOpTypeMismatch o r tr⟩
                  | _ => .err ⟨ctx, e, .binOpTypeMismatch o r tr⟩
                else .err ⟨ctx, e, .binOpTypeMismatch o l tl⟩
            | _ => .err ⟨ctx, e, .binOpTypeMismatch o l tl⟩)
    | .unionType _ => .panicked

/-- `normalized_type_with` (typecheck.rs lines 453-461): normalize the
synthesised type. -/
def normalizedTypeWith (norm : Expr → Expr) (n : Nat) (ctx : Ctx) (e : Expr) : TCResult :=
  TCRes.mapOk norm (typeWith norm n ctx e)

/-- `type_of` (typecheck.rs lines 466-471): `type_with` in the empty
context. -/
def typeOf (norm : Expr → Expr) (n : Nat) (e : Expr) : TCResult :=
  typeWith norm n Ctx.empty e

namespace Sem

/-- A binder of the value-based core: a nominal label plus a unique id
(`Binder`, spec 4.1 alternative realization). -/
structure Binder where
  name : Label
  uid : Nat
deriving DecidableEq

/-- `Binder::into() : AlphaVar`, the variable referring to the binder
itself; the nameless α-component of `AlphaVar` is not needed by the
context operations and is omitted. -/
def Binder.toVar (b : Binder) : V := ⟨b.name, 0⟩

/-- A context item (`CtxItem`, context.rs lines 11-15): a binder kept
abstract, with the variable referring to it and its type, or a binder
replaced by a value. -/
inductive CtxItem (Val : Type) where
  | kept : V → Val → CtxItem Val
  | replaced : Val → CtxItem Val

/-- Whether an item is a kept binder. -/
def CtxItem.isKept : CtxItem Val → Bool
  | .kept _ _ => true
  | .replaced _ => false

/-- The typing context of the value-based core (`TyCtx`, context.rs lines
17-23), a stack of frames with the innermost frame last.  The shared
monotone fresh-id counter `next_uid` only feeds `new_binder` and does not
affect insertion or lookup; it is not part of the functional model. -/
structure TyCtx (Val : Type) where
  frames : List (Binder × CtxItem Val)

/-- A fresh, empty context. -/
def TyCtx.empty : TyCtx Val := ⟨[]⟩

/-- `TyCtx::insert_type` (context.rs lines 43-47): clone the frame vector
and push `(x, Kept(x.into(), t.under_binder(x)))`.  `ub` is
`Value::under_binder`, modelled as a parameter since `Value` lives outside
the verified sources. -/
def TyCtx.insertType (ub : Binder → Val → Val) (Γ : TyCtx Val) (x : Binder) (t : Val) :
    TyCtx Val :=
  ⟨Γ.frames ++ [(x, .kept x.toVar (ub x t))]⟩

/-- `TyCtx::insert_value` (context.rs lines 48-56): clone the frame vector
and push `(x, Replaced(e))`; the `Result` of the source is always `Ok`. -/
def TyCtx.insertValue (Γ : TyCtx Val) (x : Binder) (e : Val) :
    Except Unit (TyCtx Val) :=
  .ok ⟨Γ.frames ++ [(x, .replaced e)]⟩

/-- `V::over_binder(l)` of the value-based core: walking a variable
outward over one binder labelled `l`; `none` means the binder captures the
variable. -/
def overBinder (l : Label) (v : V) : Option V :=
  if v.name = l then (if v.idx = 0 then none else some ⟨v.name, v.idx - 1⟩)
  else some v

/-- Bump the count of a label in the shift map accumulated by `lookup`. -/
def bumpShiftMap (l : Label) : List (Label × Nat) → List (Label × Nat)
  | [] => [(l, 1)]
  | (k, c) :: rest =>
      if k = l then (k, c + 1) :: rest else (k, c) :: bumpShiftMap l rest

/-- Shift a variable under the binders recorded in the shift map. -/
def shiftMapVar (sm : List (Label × Nat)) (v : V) : V :=
  match sm.find? (fun p => p.1 = v.name) with
  | some (_, c) => ⟨v.name, v.idx + c⟩
  | none => v

/-- The scan of `TyCtx::lookup` (context.rs lines 57-80): walk the frames
innermost-first, walking the variable over each binder; on capture, return
the item shifted under the kept binders passed so far (`umbV` is
`Value`'s `under_multiple_binders`, `fkat` is
`Value::from_kind_and_type` applied to a `Var` kind; both are parameters
because `Value` lives outside the verified sources). -/
def lookupGo (umbV : List (Label × Nat) → Val → Val) (fkat : V → Val → Val) :
    V → List (Label × Nat) → List (Binder × CtxItem Val) → Option Val
  | _, _, [] => none
  | var, sm, (b, i) :: rest =>
      match overBinder b.name var with
      | none =>
          some (match i with
                | .kept v t => fkat (shiftMapVar sm v) (umbV sm t)
                | .replaced v => umbV sm v)
      | some newvar =>
          lookupGo umbV fkat newvar
            (if i.isKept then bumpShiftMap b.name sm else sm) rest

/-- `TyCtx::lookup`: scan from the innermost frame (the back of the
vector) with an initially empty shift map. -/
def TyCtx.lookup (umbV : List (Label × Nat) → Val → Val) (fkat : V → Val → Val)
    (Γ : TyCtx Val) (var : V) : Option Val :=
  lookupGo umbV fkat var [] Γ.frames.reverse

end Sem

/-- Frames whose two labels coincide, the pair stack produced when
`prop_equal` walks a term against itself. -/
def diagCtx (ls : List Label) : List (Label × Label) :=
  ls.map fun l => (l, l)

/-- The pair stack with the left and right labels exchanged. -/
def swapCtx (ctx : List (Label × Label)) : List (Label × Label) :=
  ctx.map fun p => (p.2, p.1)

mutual

/-- Terms built only from the seven constructors `prop_equal` handles
(`Const`, `Builtin`, `Var`, `Pi`, `App`, `RecordType`, `UnionType`); on
this fragment `prop_equal` compares structurally under the renaming
stack. -/
def goodFrag : Expr → Bool
  | .const _ => true
  | .builtin _ => true
  | .var _ => true
  | .pi _ t b => goodFrag t && goodFrag b
  | .app f args => goodFrag f && goodFragList args
  | .recordType kts => goodFragKts kts
  | .unionType kts => goodFragKts kts
  | _ => false

/-- `goodFrag` over a vector of subterms. -/
def goodFragList : List Expr → Bool
  | [] => true
  | e :: es => goodFrag e && goodFragList es

/-- `goodFrag` over the values of a keyed map. -/
def goodFragKts : List (Label × Expr) → Bool
  | [] => true
  | (_, t) :: rest => goodFrag t && goodFragKts rest

end

/-- Whether the head constructor of a term is one of the seven that
`prop_equal` handles; every pair whose left side fails this test falls
into the catch-all arm. -/
def headGood : Expr → Bool
  | .const _ => true
  | .builtin _ => true
  | .var _ => true
  | .pi _ _ _ => true
  | .app _ _ => true
  | .recordType _ => true
  | .unionType _ => true
  | _ => false

theorem swapCtx_cons (a b : Label) (rest : List (Label × Label)) :
    swapCtx ((a, b) :: rest) = (b, a) :: swapCtx rest := rfl

theorem swapCtx_append (l1 l2 : List (Label × Label)) :
    swapCtx (l1 ++ l2) = swapCtx l1 ++ swapCtx l2 :=
  List.map_append _ _ _

theorem diagCtx_append (l1 l2 : List Label) :
    diagCtx (l1 ++ l2) = diagCtx l1 ++ diagCtx l2 :=
  List.map_append _ _ _

theorem matchVars_symm : ∀ (ctx : List (Label × Label)) (vl vr : V),
    matchVars vr vl (swapCtx ctx) = matchVars vl vr ctx := by
  intro ctx
  induction ctx with
  | nil =>
      intro vl vr
      simp only [swapCtx, List.map_nil, matchVars, Option.some.injEq]
      simp [eq_comm]
  | cons p rest ih =>
      intro vl vr
      obtain ⟨a, b⟩ := p
      obtain ⟨xL, nL⟩ := vl
      obtain ⟨xR, nR⟩ := vr
      rw [swapCtx_cons]
      simp only [matchVars]
      split_ifs <;> first | rfl | tauto

theorem matchVars_diag : ∀ (ls : List Label) (v : V),
    matchVars v v (diagCtx ls) = some true := by
  intro ls
  induction ls with
  | nil => intro v; simp [matchVars, diagCtx]
  | cons l rest ih =>
      intro v
      obtain ⟨x, n⟩ := v
      simp only [diagCtx, List.map_cons, matchVars]
      split_ifs <;> first | rfl | tauto

theorem matchVars_trans : ∀ (t : List (Label × Label × Label)) (v1 v2 v3 : V),
    matchVars v1 v2 (t.map fun p => (p.1, p.2.1)) = some true →
    matchVars v2 v3 (t.map fun p => (p.2.1, p.2.2)) = some true →
    matchVars v1 v3 (t.map fun p => (p.1, p.2.2)) = some true := by
  intro t
  induction t with
  | nil =>
      intro v1 v2 v3 h12 h23
      simp only [List.map_nil, matchVars, Option.some.injEq, decide_eq_true_eq] at *
      exact h12.trans h23
  | cons p rest ih =>
      intro v1 v2 v3 h12 h23
      obtain ⟨a, b, c⟩ := p
      obtain ⟨x1, n1⟩ := v1
      obtain ⟨x2, n2⟩ := v2
      obtain ⟨x3, n3⟩ := v3
      simp only [List.map_cons, matchVars] at h12 h23 ⊢
      by_cases hA1 : x1 = a ∧ x2 = b ∧ n1 = 0 ∧ n2 = 0
      · by_cases hA2 : x2 = b ∧ x3 = c ∧ n2 = 0 ∧ n3 = 0
        · rw [if_pos (by tauto)]
        · rw [if_neg hA2, if_pos (by tauto)] at h23
          exact absurd h23 (by simp)
      · rw [if_neg hA1] at h12
        by_cases hU1 : x1 = a ∧ n1 = 0
        · rw [if_pos hU1] at h12
          exact absurd h12 (by simp)
        · rw [if_neg hU1] at h12
          by_cases hU2 : x2 = b ∧ n2 = 0
          · rw [if_pos hU2] at h12
            exact absurd h12 (by simp)
          · rw [if_neg hU2] at h12
            by_cases hA2 : x2 = b ∧ x3 = c ∧ n2 = 0 ∧ n3 = 0
            · exact absurd hA2 (by tauto)
            · rw [if_neg hA2, if_neg hU2] at h23
              by_cases hU3 : x3 = c ∧ n3 = 0
              · rw [if_pos hU3] at h23
                exact absurd h23 (by simp)
              · rw [if_neg hU3] at h23
                by_cases hA3 : x1 = a ∧ x3 = c ∧ n1 = 0 ∧ n3 = 0
                · rw [if_pos hA3]
                · rw [if_neg hA3, if_neg hU1, if_neg hU3]
                  exact ih _ _ _ h12 h23


theorem propEqGo_default (ctx : List (Label × Label)) (t x1 : Expr)
    (hc : ∀ (a b : Const), t = Expr.const a → x1 = Expr.const b → False)
    (hb : ∀ (a b : Builtin), t = Expr.builtin a → x1 = Expr.builtin b → False)
    (hv : ∀ (vL vR : V), t = Expr.var vL → x1 = Expr.var vR → False)
    (hp : ∀ (xL : Label) (tL bL : Expr) (xR : Label) (tR bR : Expr),
        t = Expr.pi xL tL bL → x1 = Expr.pi xR tR bR → False)
    (ha : ∀ (fL : Expr) (aL : List Expr) (fR : Expr) (aR : List Expr),
        t = fL.app aL → x1 = fR.app aR → False)
    (hr : ∀ (ktsL ktsR : List (Label × Expr)),
        t = Expr.recordType ktsL → x1 = Expr.recordType ktsR → False)
    (hu : ∀ (ktsL ktsR : List (Label × Expr)),
        t = Expr.unionType ktsL → x1 = Expr.unionType ktsR → False) :
    propEqGo ctx t x1 = some false := by
  rw [propEqGo.eq_def]
  split <;> first | rfl | (exfalso; solve_by_elim)

theorem propEqGo_symm : ∀ (ctx : List (Label × Label)) (e1 e2 : Expr),
    propEqGo (swapCtx ctx) e2 e1 = propEqGo ctx e1 e2 := by
  have main := propEqGo.induct
    (fun ctx e1 e2 => propEqGo (swapCtx ctx) e2 e1 = propEqGo ctx e1 e2)
    (fun ctx k1 k2 => propEqKts (swapCtx ctx) k2 k1 = propEqKts ctx k1 k2)
    (fun ctx l1 l2 => propEqList (swapCtx ctx) l2 l1 = propEqList ctx l1 l2)
  apply main
  -- const
  · intro x a b; simp [propEqGo, eq_comm]
  -- builtin
  · intro x a b; simp [propEqGo, eq_comm]
  -- var
  · intro ctx vL vR; simpa [propEqGo] using matchVars_symm ctx vL vR
  -- pi
  · intro ctx xL tL bL xR tR bR ih1 ih2
    simp only [propEqGo, swapCtx_append] at *
    rw [ih1]
    cases h : propEqGo ctx tL tR with
    | none => rfl
    | some b =>
        cases b with
        | false => rfl
        | true => simpa [swapCtx] using ih2
  -- app
  · intro ctx fL aL fR aR ih1 ih3
    simp only [propEqGo] at *
    rw [ih1]
    cases h : propEqGo ctx fL fR with
    | none => rfl
    | some b =>
        cases b with
        | false => rfl
        | true =>
            simp only [Option.bind_eq_bind, Option.some_bind, if_true]
            by_cases hl : aL.length = aR.length
            · rw [if_pos hl.symm, if_pos hl]
              exact ih3
            · rw [if_neg fun hh => hl hh.symm, if_neg hl]
  -- recordType, equal lengths
  · intro ctx ktsL ktsR hlen ih2
    simp only [propEqGo]
    rw [if_pos hlen, if_pos hlen.symm]
    exact ih2
  -- recordType, unequal lengths
  · intro ctx ktsL ktsR hlen
    simp only [propEqGo]
    rw [if_neg hlen, if_neg (fun h => hlen h.symm)]
  -- unionType, equal lengths
  · intro ctx ktsL ktsR hlen ih2
    simp only [propEqGo]
    rw [if_pos hlen, if_pos hlen.symm]
    exact ih2
  -- unionType, unequal lengths
  · intro ctx ktsL ktsR hlen
    simp only [propEqGo]
    rw [if_neg hlen, if_neg (fun h => hlen h.symm)]
  -- default
  · intro t x x1 hc hb hv hp ha hr hu
    rw [propEqGo_default x t x1 hc hb hv hp ha hr hu]
    rw [propEqGo_default (swapCtx x) x1 t] <;>
      first
        | (intro a b h1 h2; solve_by_elim)
        | (intro a b c d h1 h2; solve_by_elim)
        | (intro a b c d e f h1 h2; solve_by_elim)
  -- list nil
  · intro x l
    cases l <;> simp [propEqList]
  -- list cons-nil
  · intro x h tl
    simp [propEqList]
  -- list cons-cons
  · intro ctx a as b bs ih1 ih3
    simp only [propEqList]
    rw [ih1]
    cases h : propEqGo ctx a b with
    | none => rfl
    | some bb => cases bb with
        | false => rfl
        | true => simpa using ih3
  -- kts nil
  · intro x l
    cases l with
    | nil => simp [propEqKts]
    | cons p tl => obtain ⟨k, t⟩ := p; simp [propEqKts]
  -- kts cons-nil
  · intro x h tl
    obtain ⟨k, t⟩ := h
    simp [propEqKts]
  -- kts cons-cons same label
  · intro ctx tL rL kR tR rR ih1 ih2
    simp only [propEqKts, if_pos rfl]
    rw [ih1]
    cases h : propEqGo ctx tL tR with
    | none => rfl
    | some bb => cases bb with
        | false => rfl
        | true => simpa using ih2
  -- kts cons-cons different labels
  · intro ctx kL tL rL kR tR rR hne
    simp only [propEqKts]
    rw [if_neg hne, if_neg (fun h => hne h.symm)]

/-- Whether two terms' head constructors form one of the seven pairs that
`prop_equal` compares; every other pair falls into its catch-all arm. -/
def matchingPair : Expr → Expr → Bool
  | .const _, .const _ => true
  | .builtin _, .builtin _ => true
  | .var _, .var _ => true
  | .pi _ _ _, .pi _ _ _ => true
  | .app _ _, .app _ _ => true
  | .recordType _, .recordType _ => true
  | .unionType _, .unionType _ => true
  | _, _ => false

theorem propEqGo_false_of_not_matching (ctx : List (Label × Label)) (e1 e2 : Expr)
    (h : matchingPair e1 e2 = false) : propEqGo ctx e1 e2 = some false := by
  rw [propEqGo.eq_def]
  split <;> first | rfl | (simp [matchingPair] at h)

theorem propEqGo_const_true (ctx : List (Label × Label)) (a : Const) (e : Expr)
    (h : propEqGo ctx (.const a) e = some true) : e = .const a := by
  cases e
  case const b =>
    simp only [propEqGo, Option.some.injEq, decide_eq_true_eq] at h
    rw [h]
  all_goals
    refine absurd h ?_
    rw [propEqGo_false_of_not_matching]
    · simp
    · rfl

theorem propEqGo_builtin_true (ctx : List (Label × Label)) (a : Builtin) (e : Expr)
    (h : propEqGo ctx (.builtin a) e = some true) : e = .builtin a := by
  cases e
  case builtin b =>
    simp only [propEqGo, Option.some.injEq, decide_eq_true_eq] at h
    rw [h]
  all_goals
    refine absurd h ?_
    rw [propEqGo_false_of_not_matching]
    · simp
    · rfl

theorem propEqGo_var_true (ctx : List (Label × Label)) (vL : V) (e : Expr)
    (h : propEqGo ctx (.var vL) e = some true) :
    ∃ vR, e = .var vR ∧ matchVars vL vR ctx = some true := by
  cases e
  case var vR => exact ⟨vR, rfl, by simpa [propEqGo] using h⟩
  all_goals
    refine absurd h ?_
    rw [propEqGo_false_of_not_matching]
    · simp
    · rfl

theorem propEqGo_pi_true (ctx : List (Label × Label)) (x : Label) (t b : Expr) (e : Expr)
    (h : propEqGo ctx (.pi x t b) e = some true) :
    ∃ x' t' b', e = .pi x' t' b' ∧ propEqGo ctx t t' = some true ∧
      propEqGo (ctx ++ [(x, x')]) b b' = some true := by
  cases e
  case pi x' t' b' =>
    simp only [propEqGo, Option.bind_eq_bind] at h
    cases heq : propEqGo ctx t t' with
    | none => rw [heq] at h; nomatch h
    | some eb =>
        rw [heq] at h
        cases eb with
        | false => nomatch h
        | true => exact ⟨x', t', b', rfl, heq, by simpa using h⟩
  all_goals
    refine absurd h ?_
    rw [propEqGo_false_of_not_matching]
    · simp
    · rfl

theorem propEqGo_app_true (ctx : List (Label × Label)) (f : Expr) (as : List Expr) (e : Expr)
    (h : propEqGo ctx (.app f as) e = some true) :
    ∃ f' as', e = .app f' as' ∧ propEqGo ctx f f' = some true ∧
      as.length = as'.length ∧ propEqList ctx as as' = some true := by
  cases e
  case app f' as' =>
    simp only [propEqGo, Option.bind_eq_bind] at h
    cases heq : propEqGo ctx f f' with
    | none => rw [heq] at h; nomatch h
    | some eb =>
        rw [heq] at h
        cases eb with
        | false => nomatch h
        | true =>
            simp only [Option.some_bind, if_true] at h
            by_cases hl : as.length = as'.length
            · rw [if_pos hl] at h
              exact ⟨f', as', rfl, heq, hl, h⟩
            · rw [if_neg hl] at h
              nomatch h
  all_goals
    refine absurd h ?_
    rw [propEqGo_false_of_not_matching]
    · simp
    · rfl

theorem propEqGo_recordType_true (ctx : List (Label × Label)) (kts : List (Label × Expr))
    (e : Expr) (h : propEqGo ctx (.recordType kts) e = some true) :
    ∃ kts', e = .recordType kts' ∧ kts.length = kts'.length ∧
      propEqKts ctx kts kts' = some true := by
  cases e
  case recordType kts' =>
    simp only [propEqGo] at h
    by_cases hl : kts.length = kts'.length
    · rw [if_pos hl] at h
      exact ⟨kts', rfl, hl, h⟩
    · rw [if_neg hl] at h
      nomatch h
  all_goals
    refine absurd h ?_
    rw [propEqGo_false_of_not_matching]
    · simp
    · rfl

theorem propEqGo_unionType_true (ctx : List (Label × Label)) (kts : List (Label × Expr))
    (e : Expr) (h : propEqGo ctx (.unionType kts) e = some true) :
    ∃ kts', e = .unionType kts' ∧ kts.length = kts'.length ∧
      propEqKts ctx kts kts' = some true := by
  cases e
  case unionType kts' =>
    simp only [propEqGo] at h
    by_cases hl : kts.length = kts'.length
    · rw [if_pos hl] at h
      exact ⟨kts', rfl, hl, h⟩
    · rw [if_neg hl] at h
      nomatch h
  all_goals
    refine absurd h ?_
    rw [propEqGo_false_of_not_matching]
    · simp
    · rfl

theorem propEqList_cons_true (ctx : List (Label × Label)) (a : Expr) (as : List Expr)
    (b : Expr) (bs : List Expr)
    (h : propEqList ctx (a :: as) (b :: bs) = some true) :
    propEqGo ctx a b = some true ∧ propEqList ctx as bs = some true := by
  simp only [propEqList, Option.bind_eq_bind] at h
  cases heq : propEqGo ctx a b with
  | none => rw [heq] at h; nomatch h
  | some eb =>
      rw [heq] at h
      cases eb with
      | false => nomatch h
      | true => exact ⟨rfl, by simpa using h⟩

theorem propEqKts_cons_true (ctx : List (Label × Label)) (k1 : Label) (t1 : Expr)
    (r1 : List (Label × Expr)) (k2 : Label) (t2 : Expr) (r2 : List (Label × Expr))
    (h : propEqKts ctx ((k1, t1) :: r1) ((k2, t2) :: r2) = some true) :
    k1 = k2 ∧ propEqGo ctx t1 t2 = some true ∧ propEqKts ctx r1 r2 = some true := by
  simp only [propEqKts] at h
  by_cases hk : k1 = k2
  · rw [if_pos hk] at h
    simp only [Option.bind_eq_bind] at h
    cases heq : propEqGo ctx t1 t2 with
    | none => rw [heq] at h; nomatch h
    | some eb =>
        rw [heq] at h
        cases eb with
        | false => nomatch h
        | true => exact ⟨hk, rfl, by simpa using h⟩
  · rw [if_neg hk] at h
    nomatch h

theorem propEqGo_trans : ∀ (t : List (Label × Label × Label)) (e1 e2 e3 : Expr),
    propEqGo (t.map fun p => (p.1, p.2.1)) e1 e2 = some true →
    propEqGo (t.map fun p => (p.2.1, p.2.2)) e2 e3 = some true →
    propEqGo (t.map fun p => (p.1, p.2.2)) e1 e3 = some true := by
  have main := propEqGo.induct
    (fun ctx12 e1 e2 => ∀ (t : List (Label × Label × Label)),
      ctx12 = t.map (fun p => (p.1, p.2.1)) → ∀ e3,
      propEqGo ctx12 e1 e2 = some true →
      propEqGo (t.map fun p => (p.2.1, p.2.2)) e2 e3 = some true →
      propEqGo (t.map fun p => (p.1, p.2.2)) e1 e3 = some true)
    (fun ctx12 k1 k2 => ∀ (t : List (Label × Label × Label)),
      ctx12 = t.map (fun p => (p.1, p.2.1)) → ∀ k3 : List (Label × Expr),
      k1.length = k2.length → k2.length = k3.length →
      propEqKts ctx12 k1 k2 = some true →
      propEqKts (t.map fun p => (p.2.1, p.2.2)) k2 k3 = some true →
      propEqKts (t.map fun p => (p.1, p.2.2)) k1 k3 = some true)
    (fun ctx12 l1 l2 => ∀ (t : List (Label × Label × Label)),
      ctx12 = t.map (fun p => (p.1, p.2.1)) → ∀ l3 : List Expr,
      l1.length = l2.length → l2.length = l3.length →
      propEqList ctx12 l1 l2 = some true →
      propEqList (t.map fun p => (p.2.1, p.2.2)) l2 l3 = some true →
      propEqList (t.map fun p => (p.1, p.2.2)) l1 l3 = some true)
  intro t e1 e2 e3 h12 h23
  refine main ?_ ?_ ?_ ?_ ?_ ?_ ?_ ?_ ?_ ?_ ?_ ?_ ?_ ?_ ?_ ?_ ?_ _ e1 e2 t rfl e3 h12 h23
  -- const
  · intro ctx a b t ht e3 h12 h23
    have hb := propEqGo_const_true _ _ _ h12
    cases hb
    have hc := propEqGo_const_true _ _ _ h23
    rw [hc]
    simp [propEqGo]
  -- builtin
  · intro ctx a b t ht e3 h12 h23
    have hb := propEqGo_builtin_true _ _ _ h12
    cases hb
    have hc := propEqGo_builtin_true _ _ _ h23
    rw [hc]
    simp [propEqGo]
  -- var
  · intro ctx vL vR t ht e3 h12 h23
    obtain ⟨v3, rfl, hm23⟩ := propEqGo_var_true _ _ _ h23
    simp only [propEqGo] at h12 ⊢
    subst ht
    exact matchVars_trans t vL vR v3 h12 hm23
  -- pi
  · intro ctx xL tL bL xR tR bR ih1 ih2 t ht e3 h12 h23
    obtain ⟨x3, t3, b3, rfl, ht23, hb23⟩ := propEqGo_pi_true _ _ _ _ _ h23
    obtain ⟨x2', t2', b2', heq, ht12, hb12⟩ := propEqGo_pi_true _ _ _ _ _ h12
    obtain ⟨rfl, rfl, rfl⟩ : xR = x2' ∧ tR = t2' ∧ bR = b2' := by
      cases heq; exact ⟨rfl, rfl, rfl⟩
    have ht13 := ih1 t ht t3 ht12 ht23
    have hb13 := ih2 (t ++ [(xL, xR, x3)])
      (by rw [ht]; simp) b3 hb12 (by simpa using hb23)
    simp only [propEqGo, Option.bind_eq_bind]
    rw [ht13]
    simpa using hb13
  -- app
  · intro ctx fL aL fR aR ih1 ih3 t ht e3 h12 h23
    obtain ⟨f3, a3, rfl, hf23, hl23, ha23⟩ := propEqGo_app_true _ _ _ _ h23
    obtain ⟨f2', a2', heq, hf12, hl12, ha12⟩ := propEqGo_app_true _ _ _ _ h12
    obtain ⟨rfl, rfl⟩ : fR = f2' ∧ aR = a2' := by cases heq; exact ⟨rfl, rfl⟩
    have hf13 := ih1 t ht f3 hf12 hf23
    have ha13 := ih3 t ht a3 hl12 hl23 ha12 ha23
    simp only [propEqGo, Option.bind_eq_bind]
    rw [hf13]
    simp only [Option.some_bind, if_true]
    rw [if_pos (hl12.trans hl23)]
    exact ha13
  -- recordType, equal lengths
  · intro ctx ktsL ktsR hlen ih2 t ht e3 h12 h23
    obtain ⟨kts3, rfl, hl23, hk23⟩ := propEqGo_recordType_true _ _ _ h23
    simp only [propEqGo] at h12
    rw [if_pos hlen] at h12
    have hk13 := ih2 t ht kts3 hlen hl23 h12 hk23
    simp only [propEqGo]
    rw [if_pos (hlen.trans hl23)]
    exact hk13
  -- recordType, unequal lengths
  · intro ctx ktsL ktsR hlen t ht e3 h12 h23
    simp only [propEqGo] at h12
    rw [if_neg hlen] at h12
    nomatch h12
  -- unionType, equal lengths
  · intro ctx ktsL ktsR hlen ih2 t ht e3 h12 h23
    obtain ⟨kts3, rfl, hl23, hk23⟩ := propEqGo_unionType_true _ _ _ h23
    simp only [propEqGo] at h12
    rw [if_pos hlen] at h12
    have hk13 := ih2 t ht kts3 hlen hl23 h12 hk23
    simp only [propEqGo]
    rw [if_pos (hlen.trans hl23)]
    exact hk13
  -- unionType, unequal lengths
  · intro ctx ktsL ktsR hlen t ht e3 h12 h23
    simp only [propEqGo] at h12
    rw [if_neg hlen] at h12
    nomatch h12
  -- default
  · intro x ctx x1 hc hb hv hp ha hr hu t ht e3 h12 h23
    exfalso
    have hfalse : propEqGo ctx x x1 = some false := by
      rw [propEqGo_false_of_not_matching]
      cases x <;> cases x1 <;> first | rfl | (exfalso; solve_by_elim)
    rw [hfalse] at h12
    exact (by simpa using h12)
  -- list nil
  · intro ctx l t ht l3 hlen1 hlen2 h12 h23
    cases l3 with
    | nil => simp [propEqList]
    | cons c cs => simp at hlen1 hlen2; omega
  -- list cons-nil
  · intro ctx hd tl t ht l3 hlen1 hlen2 h12 h23
    simp at hlen1
  -- list cons-cons
  · intro ctx a as b bs ih1 ih3 t ht l3 hlen1 hlen2 h12 h23
    cases l3 with
    | nil => simp at hlen2
    | cons c cs =>
        obtain ⟨hab, has⟩ := propEqList_cons_true _ _ _ _ _ h12
        obtain ⟨hbc, hbs⟩ := propEqList_cons_true _ _ _ _ _ h23
        have hac := ih1 t ht c hab hbc
        have hrest := ih3 t ht cs (by simpa using hlen1) (by simpa using hlen2) has hbs
        simp only [propEqList, Option.bind_eq_bind]
        rw [hac]
        simpa using hrest
  -- kts nil
  · intro ctx l t ht l3 hlen1 hlen2 h12 h23
    cases l3 with
    | nil => simp [propEqKts]
    | cons c cs => simp at hlen1 hlen2; omega
  -- kts cons-nil
  · intro ctx hd tl t ht l3 hlen1 hlen2 h12 h23
    simp at hlen1
  -- kts cons-cons, equal labels
  · intro ctx tL rL kR tR rR ih1 ih2 t ht l3 hlen1 hlen2 h12 h23
    cases l3 with
    | nil => simp at hlen2
    | cons p3 r3 =>
        obtain ⟨k3, t3⟩ := p3
        obtain ⟨-, ht12, hr12⟩ := propEqKts_cons_true _ _ _ _ _ _ _ h12
        obtain ⟨hk23, ht23, hr23⟩ := propEqKts_cons_true _ _ _ _ _ _ _ h23
        have ht13 := ih1 t ht t3 ht12 ht23
        have hr13 := ih2 t ht r3 (by simpa using hlen1) (by simpa using hlen2) hr12 hr23
        simp only [propEqKts]
        rw [if_pos hk23]
        simp only [Option.bind_eq_bind]
        rw [ht13]
        simpa using hr13
  -- kts cons-cons, unequal labels
  · intro ctx kL tL rL kR tR rR hne t ht l3 hlen1 hlen2 h12 h23
    obtain ⟨hk, -, -⟩ := propEqKts_cons_true _ _ _ _ _ _ _ h12
    exact absurd hk hne

theorem matchingPair_false_of_not_headGood (e1 e2 : Expr) (h : headGood e1 = false) :
    matchingPair e1 e2 = false := by
  cases e1 <;> first | (cases e2 <;> rfl) | (simp [headGood] at h)

theorem propEqGo_false_of_not_headGood (ctx : List (Label × Label)) (e1 e2 : Expr)
    (h : headGood e1 = false) : propEqGo ctx e1 e2 = some false :=
  propEqGo_false_of_not_matching ctx e1 e2 (matchingPair_false_of_not_headGood e1 e2 h)

theorem propEqGo_refl_frag : ∀ (e : Expr) (ls : List Label),
    goodFrag e = true → propEqGo (diagCtx ls) e e = some true := by
  have main := goodFrag.induct
    (fun e => ∀ ls : List Label, goodFrag e = true → propEqGo (diagCtx ls) e e = some true)
    (fun k => ∀ ls : List Label, goodFragKts k = true →
      propEqKts (diagCtx ls) k k = some true)
    (fun l => ∀ ls : List Label, goodFragList l = true →
      propEqList (diagCtx ls) l l = some true)
  intro e ls hg
  refine main ?_ ?_ ?_ ?_ ?_ ?_ ?_ ?_ ?_ ?_ ?_ ?_ e ls hg
  -- const
  · intro c ls _; simp [propEqGo]
  -- builtin
  · intro b ls _; simp [propEqGo]
  -- var
  · intro v ls _
    simpa [propEqGo] using matchVars_diag ls v
  -- pi
  · intro x t b ih1 ih2 ls hg
    simp only [goodFrag, Bool.and_eq_true] at hg
    simp only [propEqGo, Option.bind_eq_bind]
    rw [ih1 ls hg.1]
    simp only [Option.some_bind, if_true]
    rw [show diagCtx ls ++ [(x, x)] = diagCtx (ls ++ [x]) by simp [diagCtx]]
    simpa using ih2 (ls ++ [x]) hg.2
  -- app
  · intro f args ih1 ih2 ls hg
    simp only [goodFrag, Bool.and_eq_true] at hg
    simp only [propEqGo, Option.bind_eq_bind]
    rw [ih1 ls hg.1]
    simp only [Option.some_bind, if_true, if_pos rfl]
    simpa using ih2 ls hg.2
  -- recordType
  · intro kts ih ls hg
    simp only [goodFrag] at hg
    simp only [propEqGo, if_pos rfl]
    exact ih ls hg
  -- unionType
  · intro kts ih ls hg
    simp only [goodFrag] at hg
    simp only [propEqGo, if_pos rfl]
    exact ih ls hg
  -- default
  · intro e h1 h2 h3 h4 h5 h6 h7 ls hg
    exfalso
    rw [goodFrag.eq_def] at hg
    split at hg <;> first | solve_by_elim | simp at hg
  -- list nil
  · intro ls _; simp [propEqList]
  -- list cons
  · intro e es ih1 ih2 ls hg
    simp only [goodFragList, Bool.and_eq_true] at hg
    simp only [propEqList, Option.bind_eq_bind]
    rw [ih1 ls hg.1]
    simpa using ih2 ls hg.2
  -- kts nil
  · intro ls _; simp [propEqKts]
  -- kts cons
  · intro k t rest ih1 ih2 ls hg
    simp only [goodFragKts, Bool.and_eq_true] at hg
    simp only [propEqKts, if_pos rfl, Option.bind_eq_bind]
    rw [ih1 ls hg.1]
    simpa using ih2 ls hg.2

/-- `prop_equal` is symmetric on all pairs of terms. -/
theorem propEqual_symm (e1 e2 : Expr) : propEqual e1 e2 = propEqual e2 e1 :=
  (propEqGo_symm [] e1 e2).symm

/-- `prop_equal` is transitive on successful comparisons. -/
theorem propEqual_trans (e1 e2 e3 : Expr) (h12 : propEqual e1 e2 = some true)
    (h23 : propEqual e2 e3 = some true) : propEqual e1 e3 = some true :=
  propEqGo_trans [] e1 e2 e3 h12 h23

/-- `prop_equal` is reflexive on the seven-constructor fragment. -/
theorem propEqual_refl_frag (e : Expr) (h : goodFrag e = true) :
    propEqual e e = some true :=
  propEqGo_refl_frag e [] h


mutual

/-- A term all of whose variables are bound by the binders recorded in
`env` (innermost first): `V(x, n)` must skip fewer `x`-labelled binders
than are in scope.  With an empty `env` this is closedness. -/
def closedUnder (env : List Label) : Expr → Bool
  | .const _ => true
  | .var v => decide (v.idx < env.count v.name)
  | .lam x tA b => closedUnder env tA && closedUnder (x :: env) b
  | .pi x tA tB => closedUnder env tA && closedUnder (x :: env) tB
  | .app f args => closedUnder env f && closedUnderList env args
  | .letIn x mt r b =>
      (match mt with | some t => closedUnder env t | none => true) &&
        closedUnder env r && closedUnder (x :: env) b
  | .annot e t => closedUnder env e && closedUnder env t
  | .boolIf c t e => closedUnder env c && closedUnder env t && closedUnder env e
  | .boolLit _ => true
  | .naturalLit _ => true
  | .integerLit _ => true
  | .doubleLit _ => true
  | .textLit _ => true
  | .binOp _ l r => closedUnder env l && closedUnder env r
  | .emptyListLit t => closedUnder env t
  | .neListLit xs => closedUnderList env xs
  | .emptyOptionalLit t => closedUnder env t
  | .neOptionalLit x => closedUnder env x
  | .recordType kts => closedUnderKts env kts
  | .recordLit kvs => closedUnderKts env kvs
  | .unionType kts => closedUnderKts env kts
  | .field r _ => closedUnder env r
  | .builtin _ => true

/-- `closedUnder` over a vector of subterms. -/
def closedUnderList (env : List Label) : List Expr → Bool
  | [] => true
  | e :: es => closedUnder env e && closedUnderList env es

/-- `closedUnder` over the values of a keyed map. -/
def closedUnderKts (env : List Label) : List (Label × Expr) → Bool
  | [] => true
  | (_, t) :: rest => closedUnder env t && closedUnderKts env rest

end

/-- The builtins for which the oracle of `typecheck.rs` has an entry. -/
def implementedBuiltins : List Builtin :=
  [.bool, .natural, .integer, .double, .text, .list, .optional,
   .naturalFold, .naturalBuild, .naturalIsZero, .naturalEven, .naturalOdd,
   .listBuild, .listFold, .listLength, .listHead, .listLast, .listIndexed,
   .listReverse, .optionalFold]

theorem splitLast_concat (a : α) : ∀ (init : List α),
    splitLast (init ++ [a]) = some (a, init) := by
  intro init
  induction init with
  | nil => rfl
  | cons x xs ih =>
      cases xs with
      | nil => rfl
      | cons y ys =>
          simp only [List.cons_append] at ih ⊢
          rw [splitLast, ih]
          simp

theorem TCRes.bind_eq_ok {α β : Type} {x : TCRes α} {g : α → TCRes β} {v : β}
    (h : x.bind g = .ok v) : ∃ w, x = .ok w ∧ g w = .ok v := by
  cases x with
  | ok a => exact ⟨a, rfl, h⟩
  | err e => nomatch h
  | panicked => nomatch h
  | nofuel => nomatch h

theorem TCRes.mapOk_eq_ok {α β : Type} {f : α → β} {x : TCRes α} {v : β}
    (h : x.mapOk f = .ok v) : ∃ w, x = .ok w ∧ v = f w := by
  cases x with
  | ok a => exact ⟨a, rfl, by cases h; rfl⟩
  | err e => nomatch h
  | panicked => nomatch h
  | nofuel => nomatch h


/-- C10: an application node with an empty argument vector is typed exactly
as its head: `type_with(Γ, App(f, []))` returns the same result (type or
error) as the recursive call `type_with(Γ, f)`, with no `NotAFunction`
check performed. -/
theorem typeWith_app_empty_args (norm : Expr → Expr) (n : Nat) (ctx : Ctx) (f : Expr) :
    typeWith norm (n + 1) ctx (.app f []) = typeWith norm n ctx f := rfl

/-- C4 counterexample: the `Let` clause of `type_with` stores the type of
the bound expression without the `+1` shift over the bound label.  With
`Γ = []`, `f = "x"` and stored type `A = Var(V("x", 0))`, the lookup of
`V("x", 0)` in the extended context returns `A` itself, which is not
α-equal to `shift(+1, V("x",0), A) = Var(V("x",1))`. -/
theorem let_clause_unshifted_counterexample :
    Ctx.lookup (Ctx.insert Ctx.empty "x" (.var ⟨"x", 0⟩)) "x" 0 =
        some (.var ⟨"x", 0⟩) ∧
      propEqual (.var ⟨"x", 0⟩) (shift 1 ⟨"x", 0⟩ (.var ⟨"x", 0⟩)) = some false :=
  ⟨rfl, rfl⟩

/-- C4 amended: the `Lam` and `Pi` clauses extend the context through
`pushShifted`, so looking up `V(x, 0)` afterwards returns exactly
`shift(+1, V(x,0), A)`; the `Let` clause extends through a bare
`Ctx.insert`, so the lookup returns the stored type `A` unshifted. -/
theorem binder_clause_context_amended (ctx : Ctx) (x : Label) (A : Expr) :
    Ctx.lookup (pushShifted ctx x A) x 0 = some (shift 1 ⟨x, 0⟩ A) ∧
      Ctx.lookup (Ctx.insert ctx x A) x 0 = some A := by
  constructor
  · simp [pushShifted, Ctx.insert, Ctx.mapTypes, Ctx.lookup]
  · simp [Ctx.insert, Ctx.lookup]

/-- C5 counterexample: `match_vars` does not walk the pair stack from the
innermost frame outward.  With `vl = V("x",1)`, `vr = V("a",0)` and the
stack `[("x","a"), ("x","b")]` (innermost frame last), the scan the claim
describes answers `true`, while `match_vars` walks the outermost frame
first and fails by decrementing the right counter below zero (a `usize`
underflow), so it does not always return a boolean. -/
theorem matchVars_scan_order_counterexample :
    matchVars ⟨"x", 1⟩ ⟨"a", 0⟩ [("x", "a"), ("x", "b")] = none ∧
      matchVarsSpecInner ⟨"x", 1⟩ ⟨"a", 0⟩ [("x", "a"), ("x", "b")] = some true :=
  ⟨rfl, rfl⟩

/-- C5 amended: the variable case of `prop_equal` computes the described
scan walking the stack from the outermost frame inward; it returns a
boolean except when a frame whose label matches would decrement a counter
already at zero, in which case it fails (usize underflow). -/
theorem matchVars_amended (ctx : List (Label × Label)) (vl vr : V) :
    propEqGo ctx (.var vl) (.var vr) = matchVarsSpecOuter vl vr ctx ∧
      matchVars vl vr ctx = matchVarsSpecOuter vl vr ctx := by
  have main : ∀ (ctx : List (Label × Label)) (vl vr : V),
      matchVars vl vr ctx = matchVarsSpecOuter vl vr ctx := by
    intro ctx
    induction ctx with
    | nil => intro vl vr; rfl
    | cons p rest ih =>
        intro vl vr
        obtain ⟨a, b⟩ := p
        obtain ⟨xL, nL⟩ := vl
        obtain ⟨xR, nR⟩ := vr
        simp only [matchVars, matchVarsSpecOuter]
        split_ifs <;> first | rfl | tauto
  exact ⟨by simpa [propEqGo] using main ctx vl vr, main ctx vl vr⟩

/-- C9: context insertion in the value-based core is functional:
`insert_type` and `insert_value` return a context whose frames are the
parent's frames followed by the new frame (`Kept` with the `+1`-shifted
type, or `Replaced`); the parent's frame list is recovered by dropping the
last frame, and lookup on it is unchanged.  The parent context itself is a
value of the embedding, so it is untouched by construction. -/
theorem tyCtx_insert_functional {Val : Type} (ub : Sem.Binder → Val → Val)
    (umbV : List (Label × Nat) → Val → Val) (fkat : V → Val → Val)
    (Γ : Sem.TyCtx Val) (x : Sem.Binder) (t e : Val) :
    (Sem.TyCtx.insertType ub Γ x t).frames =
        Γ.frames ++ [(x, .kept x.toVar (ub x t))] ∧
      Sem.TyCtx.insertValue Γ x e = .ok ⟨Γ.frames ++ [(x, .replaced e)]⟩ ∧
      (Sem.TyCtx.insertType ub Γ x t).frames.dropLast = Γ.frames ∧
      ∀ v, Sem.TyCtx.lookup umbV fkat ⟨(Sem.TyCtx.insertType ub Γ x t).frames.dropLast⟩ v =
        Sem.TyCtx.lookup umbV fkat Γ v := by
  refine ⟨rfl, rfl, ?_, ?_⟩
  · simp [Sem.TyCtx.insertType]
  · intro v
    simp [Sem.TyCtx.insertType, Sem.TyCtx.lookup]


/-- C3: the `Pi` clause of `type_with`.  When the normalized type of the
domain is `Const kA` and the normalized type of the codomain under the
extended context is `Const kB`, the `(Type, Kind)` cell of the universe
table fails with `NoDependentTypes`, and the three permitted cells return
`Const kB`; in particular
`type_of(Pi("x", Builtin(Natural), Const(Type)))` is that error. -/
theorem typeWith_pi_clause (norm : Expr → Expr) (n : Nat) (ctx : Ctx)
    (x : Label) (A B : Expr) (kA kB : Const)
    (h1 : normalizedTypeWith norm n ctx A = .ok (.const kA))
    (h2 : normalizedTypeWith norm n (pushShifted ctx x A) B = .ok (.const kB)) :
    (kA = .type → kB = .kind →
      typeWith norm (n + 1) ctx (.pi x A B) =
        .err ⟨ctx, .pi x A B, .noDependentTypes A (.const kB)⟩) ∧
    ((kA = .type ∧ kB = .kind → False) →
      typeWith norm (n + 1) ctx (.pi x A B) = .ok (.const kB)) ∧
    typeOf id 3 (.pi "x" (.builtin .natural) (.const .type)) =
      .err ⟨Ctx.empty, .pi "x" (.builtin .natural) (.const .type),
        .noDependentTypes (.builtin .natural) (.const .kind)⟩ := by
  simp only [normalizedTypeWith] at h1 h2
  refine ⟨?_, ?_, rfl⟩
  · intro hA hB
    subst hA hB
    simp only [typeWith, h1, h2, TCRes.bind]
    rfl
  · intro hforbidden
    simp only [typeWith, h1, h2, TCRes.bind]
    cases kA <;> cases kB <;>
      first | rfl | (exact absurd ⟨rfl, rfl⟩ hforbidden)

/-- C3 witness: the hypotheses hold for the concrete term
`Pi("x", Builtin(Natural), Const(Type))` in the empty context, and the
clause rejects it with `NoDependentTypes`. -/
theorem typeWith_pi_clause_witness :
    typeWith id 3 Ctx.empty (.pi "x" (.builtin .natural) (.const .type)) =
      .err ⟨Ctx.empty, .pi "x" (.builtin .natural) (.const .type),
        .noDependentTypes (.builtin .natural) (.const .kind)⟩ :=
  (typeWith_pi_clause id 2 Ctx.empty "x" (.builtin .natural) (.const .type)
    .type .kind rfl rfl).1 rfl rfl

/-- C6 counterexample: the builtin type oracle is not total on the
builtins the language defines: `type_of_builtin(Natural/show)` reaches the
panicking catch-all arm, and typing `Builtin(Natural/show)` panics instead
of returning a type. -/
theorem typeOfBuiltin_naturalShow_counterexample :
    typeOfBuiltin .naturalShow = none ∧
      typeWith id 1 Ctx.empty (.builtin .naturalShow) = .panicked :=
  ⟨rfl, rfl⟩

/-- C6 amended: the oracle is total on the twenty builtins it implements:
for each of them it returns a closed type, and `type_with` returns exactly
that type in every context and for every normalizer; the remaining
builtins panic. -/
theorem typeOfBuiltin_implemented_amended :
    (implementedBuiltins.all fun b =>
        match typeOfBuiltin b with
        | some t => closedUnder [] t
        | none => false) = true ∧
    ∀ (norm : Expr → Expr) (n : Nat) (ctx : Ctx) (b : Builtin),
      b ∈ implementedBuiltins →
      ∃ t, typeOfBuiltin b = some t ∧
        typeWith norm (n + 1) ctx (.builtin b) = .ok t := by
  refine ⟨rfl, ?_⟩
  intro norm n ctx b hb
  cases b <;> first
    | exact ⟨_, rfl, rfl⟩
    | (exfalso; simp [implementedBuiltins] at hb)

/-- C6 witness: the amended statement applied to the builtin `Natural`. -/
theorem typeOfBuiltin_implemented_witness :
    ∃ t, typeOfBuiltin .natural = some t ∧
      typeWith id 1 Ctx.empty (.builtin .natural) = .ok t :=
  typeOfBuiltin_implemented_amended.2 id 0 Ctx.empty .natural
    (by simp [implementedBuiltins])

/-- C8: the `BinOp` clause of `type_with` for an implemented operator with
demanded operand type `t`.  A left operand whose normalized type is not
`Builtin t` is reported as `BinOpTypeMismatch` naming the left operand,
whatever the right operand does (so when both sides fail, the left one is
reported); with a conforming left operand, a non-conforming right operand
is reported on the right; with both conforming the clause returns
`Builtin t`. -/
theorem typeWith_binop_clause (norm : Expr → Expr) (n : Nat) (ctx : Ctx)
    (o : BinOp) (l r : Expr) (t : Builtin)
    (ht : demandedType o = some t) :
    (∀ tl, normalizedTypeWith norm n ctx l = .ok tl → tl ≠ .builtin t →
      typeWith norm (n + 1) ctx (.binOp o l r) =
        .err ⟨ctx, .binOp o l r, .binOpTypeMismatch o l tl⟩) ∧
    (∀ tr, normalizedTypeWith norm n ctx l = .ok (.builtin t) →
      normalizedTypeWith norm n ctx r = .ok tr → tr ≠ .builtin t →
      typeWith norm (n + 1) ctx (.binOp o l r) =
        .err ⟨ctx, .binOp o l r, .binOpTypeMismatch o r tr⟩) ∧
    (normalizedTypeWith norm n ctx l = .ok (.builtin t) →
      normalizedTypeWith norm n ctx r = .ok (.builtin t) →
      typeWith norm (n + 1) ctx (.binOp o l r) = .ok (.builtin t)) := by
  refine ⟨?_, ?_, ?_⟩
  · intro tl hl hne
    simp only [normalizedTypeWith] at hl
    cases tl
    case builtin lt =>
      have hne2 : ¬(lt = t) := fun h => hne (by rw [h])
      simp [typeWith, ht, hl, TCRes.bind, hne2]
    all_goals simp [typeWith, ht, hl, TCRes.bind]
  · intro tr hl hr hne
    simp only [normalizedTypeWith] at hl hr
    cases tr
    case builtin rt =>
      have hne2 : ¬(rt = t) := fun h => hne (by rw [h])
      simp [typeWith, ht, hl, hr, TCRes.bind, hne2]
    all_goals simp [typeWith, ht, hl, hr, TCRes.bind]
  · intro hl hr
    simp only [normalizedTypeWith] at hl hr
    simp [typeWith, ht, hl, hr, TCRes.bind]

/-- C8 witness: `NaturalPlus` demands `Natural`; with left operand
`NaturalLit 1` and right operand `BoolLit true`, the right side is
reported. -/
theorem typeWith_binop_clause_witness :
    typeWith id 2 Ctx.empty (.binOp .naturalPlus (.naturalLit 1) (.boolLit true)) =
      .err ⟨Ctx.empty, .binOp .naturalPlus (.naturalLit 1) (.boolLit true),
        .binOpTypeMismatch .naturalPlus (.boolLit true) (.builtin .bool)⟩ :=
  (typeWith_binop_clause id 1 Ctx.empty .naturalPlus (.naturalLit 1)
    (.boolLit true) .natural rfl).2.1 (.builtin .bool) rfl rfl (by simp)


/-- C1: the application clause of `type_with`.  For a non-empty argument
vector `init ++ [a]`, if the normalized type of `App(f, init)` is
`Pi(x, tA, tB)`, then: when `normalize(tA)` is α-equal to the normalized
synthesised type of `a`, the clause returns
`shift(-1, V(x,0), subst(V(x,0), shift(+1, V(x,0), a), tB))`; when the two
are α-unequal it fails with `TypeMismatch`; and when the normalized
function type is not a `Pi` it fails with `NotAFunction`. -/
theorem typeWith_app_clause (norm : Expr → Expr) (n : Nat) (ctx : Ctx)
    (f a : Expr) (init : List Expr) :
    (∀ x tA tB,
      normalizedTypeWith norm n ctx (.app f init) = .ok (.pi x tA tB) →
      ∀ tA2, normalizedTypeWith norm n ctx a = .ok tA2 →
        (propEqual (norm tA) tA2 = some true →
          typeWith norm (n + 1) ctx (.app f (init ++ [a])) =
            .ok (shift (-1) ⟨x, 0⟩ (subst ⟨x, 0⟩ (shift 1 ⟨x, 0⟩ a) tB))) ∧
        (propEqual (norm tA) tA2 = some false →
          typeWith norm (n + 1) ctx (.app f (init ++ [a])) =
            .err ⟨ctx, .app f (init ++ [a]), .typeMismatch f (norm tA) a tA2⟩)) ∧
    (∀ tf, normalizedTypeWith norm n ctx (.app f init) = .ok tf →
      (∀ x tA tB, tf ≠ .pi x tA tB) →
      typeWith norm (n + 1) ctx (.app f (init ++ [a])) =
        .err ⟨ctx, .app f (init ++ [a]), .notAFunction f tf⟩) := by
  constructor
  · intro x tA tB h1 tA2 h2
    simp only [normalizedTypeWith] at h1 h2
    constructor
    · intro hpe
      simp [typeWith, splitLast_concat, h1, h2, TCRes.bind, hpe]
    · intro hpe
      simp [typeWith, splitLast_concat, h1, h2, TCRes.bind, hpe]
  · intro tf h1 hne
    simp only [normalizedTypeWith] at h1
    cases tf
    case pi x tA tB => exact absurd rfl (hne x tA tB)
    all_goals simp [typeWith, splitLast_concat, h1, TCRes.bind]

/-- C1 witness: applying `Natural/isZero`, whose type is
`Natural -> Bool`, to `NaturalLit 5` yields `Bool` through the
substitution formula. -/
theorem typeWith_app_clause_witness :
    typeWith id 3 Ctx.empty (.app (.builtin .naturalIsZero) [.naturalLit 5]) =
      .ok (.builtin .bool) :=
  ((typeWith_app_clause id 2 Ctx.empty (.builtin .naturalIsZero)
      (.naturalLit 5) []).1 "_" (.builtin .natural) (.builtin .bool) rfl
    (.builtin .natural) rfl).1 rfl

/-- C7: the annotation clause of `type_with`.  Whenever
`type_with(Γ, Annot(e, T))` succeeds with `T'`, the result is exactly
`normalize(T)` and is α-equal to it; and when the annotation itself
type-checks but the normalized synthesised type of `e` compares α-unequal
to `normalize(T)`, the clause fails with `AnnotMismatch`. -/
theorem typeWith_annot_clause (norm : Expr → Expr) (n : Nat) (ctx : Ctx)
    (x t : Expr) :
    (∀ T', typeWith norm (n + 1) ctx (.annot x t) = .ok T' →
      T' = norm t ∧ propEqual T' (norm t) = some true) ∧
    (∀ s t2, typeWith norm n ctx t = .ok s →
      normalizedTypeWith norm n ctx x = .ok t2 →
      propEqual (norm t) t2 = some false →
      typeWith norm (n + 1) ctx (.annot x t) =
        .err ⟨ctx, .annot x t, .annotMismatch x (norm t) t2⟩) := by
  constructor
  · intro T' h
    simp only [typeWith] at h
    obtain ⟨s, hs, h⟩ := TCRes.bind_eq_ok h
    obtain ⟨u, hu, h⟩ := TCRes.bind_eq_ok h
    cases hpe : propEqual (norm t) u with
    | none => rw [hpe] at h; nomatch h
    | some b =>
        rw [hpe] at h
        cases b with
        | false => nomatch h
        | true =>
            cases h
            refine ⟨rfl, ?_⟩
            have h2 : propEqual u (norm t) = some true := by
              rw [← propEqual_symm]; exact hpe
            exact propEqual_trans _ _ _ hpe h2
  · intro s t2 hs hx hpe
    simp only [normalizedTypeWith] at hx
    simp [typeWith, hs, hx, TCRes.bind, hpe]

/-- C7 witness: annotating `NaturalLit 1` with `Builtin(Natural)` succeeds
with the normalized annotation, which is α-equal to itself. -/
theorem typeWith_annot_clause_witness :
    typeWith id 2 Ctx.empty (.annot (.naturalLit 1) (.builtin .natural)) =
        .ok (.builtin .natural) ∧
      propEqual (.builtin .natural) (.builtin .natural) = some true := by
  have h := (typeWith_annot_clause id 1 Ctx.empty (.naturalLit 1)
    (.builtin .natural)).1 (.builtin .natural) rfl
  exact ⟨rfl, h.2⟩

/-- C2 counterexample: `prop_equal` is not reflexive on normalized terms,
and terms with the same head constructor outside the seven handled ones do
not compare structurally: two identical `NaturalLit 1` literals fall into
the catch-all arm and compare unequal. -/
theorem propEqual_naturalLit_refl_counterexample :
    propEqual (.naturalLit 1) (.naturalLit 1) = some false := rfl

/-- C2 amended: `prop_equal` is symmetric on all terms and transitive on
successful comparisons; it is reflexive on terms built only from the seven
constructors it handles (`Const`, `Builtin`, `Var`, `Pi`, `App`,
`RecordType`, `UnionType`); and every pair whose left side has any other
head constructor compares false, even when the two terms are structurally
equal. -/
theorem propEqual_equivalence_amended :
    (∀ e1 e2 : Expr, propEqual e1 e2 = propEqual e2 e1) ∧
    (∀ e1 e2 e3 : Expr, propEqual e1 e2 = some true →
      propEqual e2 e3 = some true → propEqual e1 e3 = some true) ∧
    (∀ e : Expr, goodFrag e = true → propEqual e e = some true) ∧
    (∀ e1 e2 : Expr, headGood e1 = false → propEqual e1 e2 = some false) :=
  ⟨propEqual_symm, propEqual_trans, propEqual_refl_frag,
   fun e1 e2 h => propEqGo_false_of_not_headGood [] e1 e2 h⟩

/-- C2 witness: transitivity through three α-equal `Pi` terms with
distinct binder names, reflexivity on a fragment term, and the catch-all
on a `TextLit`. -/
theorem propEqual_equivalence_amended_witness :
    propEqual (.pi "a" (.const .type) (.var ⟨"a", 0⟩))
        (.pi "c" (.const .type) (.var ⟨"c", 0⟩)) = some true ∧
      propEqual (.builtin .natural) (.builtin .natural) = some true ∧
      propEqual (.textLit "s") (.textLit "s") = some false :=
  ⟨propEqual_equivalence_amended.2.1 _ (.pi "b" (.const .type) (.var ⟨"b", 0⟩)) _
      rfl rfl,
   propEqual_equivalence_amended.2.2.1 _ rfl,
   propEqual_equivalence_amended.2.2.2 _ _ rfl⟩

end Dhall
